import Mathlib

/-!
Shallow embedding of `src/cmd/bake-kas/scripts/kas_checkout.py`.

The file embeds the `Config` class, the `InitSetupRepos` command and the
pieces of the kas library surface they use.  Python strings are `String`,
Python dicts appearing in the merged configuration are association lists
(`List (String × _)`), `None`-able values are `Option`, and `os.environ`
is a function `String → Option String` passed to every accessor that
reads it.  Operations of the Python standard library used by the code
(`str.split`, `str.startswith`, `sorted`, `os.environ.get`) are spelled
out below as executable Lean functions over the character lists of the
strings involved.
-/

/- ### Python string operations -/

/-- Python `s.split(sep)` for a single-character separator, on character
lists: splits at every occurrence of the separator and keeps empty
fields.  Returns the first field and the remaining fields. -/
def charSplitP (p : Char → Bool) : List Char → List Char × List (List Char)
  | [] => ([], [])
  | c :: rest =>
    let r := charSplitP p rest
    if p c then ([], r.1 :: r.2) else (c :: r.1, r.2)

/-- Python `s.split(sep)` for a single-character separator `sep`:
at least one field is always returned, and empty fields are kept. -/
def pySplitChar (s : String) (sep : Char) : List String :=
  ((charSplitP (fun c => c = sep) s.data).1 ::
    (charSplitP (fun c => c = sep) s.data).2).map (fun cs => ⟨cs⟩)

/-- The fields obtained by cutting a string at every whitespace
character, empty fields kept.  Python's no-argument `s.split()` equals
this list with the empty fields removed, so the source's
`[i for i in s.split() if i]` equals `(pyWsFields s).filter (· ≠ "")`. -/
def pyWsFields (s : String) : List String :=
  ((charSplitP Char.isWhitespace s.data).1 ::
    (charSplitP Char.isWhitespace s.data).2).map (fun cs => ⟨cs⟩)

/-- Is the first list an initial segment of the second? -/
def listIsInit : List Char → List Char → Bool
  | [], _ => true
  | _ :: _, [] => false
  | a :: as, b :: bs => a = b && listIsInit as bs

/-- Python `s.startswith(p)`. -/
def pyStarts (s p : String) : Bool := listIsInit p.data s.data

/- ### Lexicographic string order (Python `sorted` on dict keys) -/

/-- Lexicographic comparison of character lists by code point, the order
Python uses when sorting strings. -/
def lexLe : List Char → List Char → Bool
  | [], _ => true
  | _ :: _, [] => false
  | a :: as, b :: bs =>
    if a.toNat < b.toNat then true
    else if b.toNat < a.toNat then false
    else lexLe as bs

theorem char_toNat_inj {a b : Char} (h : a.toNat = b.toNat) : a = b := by
  have := congrArg Char.ofNat h
  rwa [Char.ofNat_toNat, Char.ofNat_toNat] at this

theorem lexLe_total : ∀ a b : List Char, lexLe a b = true ∨ lexLe b a = true
  | [], _ => Or.inl rfl
  | _ :: _, [] => Or.inr rfl
  | a :: as, b :: bs => by
    by_cases hab : a.toNat < b.toNat
    · left; simp [lexLe, hab]
    · by_cases hba : b.toNat < a.toNat
      · right; simp [lexLe, hba]
      · have := lexLe_total as bs
        rcases this with h | h
        · left; simp [lexLe, hab, hba, h]
        · right; simp [lexLe, hba, hab, h]

theorem lexLe_trans : ∀ {a b c : List Char},
    lexLe a b = true → lexLe b c = true → lexLe a c = true
  | [], _, _, _, _ => rfl
  | _ :: _, [], _, h, _ => by simp [lexLe] at h
  | _ :: _, _ :: _, [], _, h => by simp [lexLe] at h
  | a :: as, b :: bs, c :: cs, hab, hbc => by
    simp only [lexLe] at hab hbc ⊢
    by_cases h1 : a.toNat < b.toNat
    · by_cases h2 : b.toNat < c.toNat
      · simp [Nat.lt_trans h1 h2]
      · by_cases h3 : c.toNat < b.toNat
        · simp [lexLe, h2, h3] at hbc
        · have hbc' : b.toNat = c.toNat := Nat.le_antisymm (Nat.le_of_not_lt h3) (Nat.le_of_not_lt h2)
          simp [hbc' ▸ h1]
    · by_cases h1' : b.toNat < a.toNat
      · simp [lexLe, h1, h1'] at hab
      · have hab' : a.toNat = b.toNat := Nat.le_antisymm (Nat.le_of_not_lt h1') (Nat.le_of_not_lt h1)
        simp only [lexLe, h1, h1', if_neg, ite_false, if_false] at hab
        by_cases h2 : b.toNat < c.toNat
        · simp [hab' ▸ h2]
        · by_cases h3 : c.toNat < b.toNat
          · simp [lexLe, h2, h3] at hbc
          · simp only [lexLe, h2, h3, if_neg, ite_false, if_false] at hbc
            have : ¬ a.toNat < c.toNat := by omega
            have : ¬ c.toNat < a.toNat := by omega
            simp_all [lexLe_trans hab hbc]

theorem lexLe_antisymm : ∀ {a b : List Char},
    lexLe a b = true → lexLe b a = true → a = b
  | [], [], _, _ => rfl
  | [], _ :: _, _, h => by simp [lexLe] at h
  | _ :: _, [], h, _ => by simp [lexLe] at h
  | a :: as, b :: bs, hab, hba => by
    simp only [lexLe] at hab hba
    by_cases h1 : a.toNat < b.toNat
    · have : ¬ b.toNat < a.toNat := by omega
      simp [lexLe, this, h1] at hba
    · by_cases h2 : b.toNat < a.toNat
      · simp [lexLe, h1, h2] at hab
      · have hk : a = b := char_toNat_inj (by omega)
        simp only [h1, h2, if_neg, ite_false, if_false] at hab hba
        simp [hk, lexLe_antisymm hab hba]

/-- Order on dict entries used by Python's `sorted(d.items())`: compare
by key.  Keys of a dict are unique, so the key order determines the
sorted sequence completely. -/
abbrev keyLe (a b : String × String) : Prop := lexLe a.1.data b.1.data = true

instance : IsTotal (String × String) keyLe := ⟨fun a b => lexLe_total a.1.data b.1.data⟩

instance : IsTrans (String × String) keyLe := ⟨fun _ _ _ h h' => lexLe_trans h h'⟩

/-- Python `sorted(d.items())` on an association list with string keys. -/
def pySortedPairs (l : List (String × String)) : List (String × String) :=
  l.insertionSort keyLe

/- ### Association-list lookup (Python dict indexing / `dict.get`) -/

/-- Python `d.get(name)` on an association list: the value at the first
matching key, if any. -/
def alistGet? {α : Type} (name : String) : List (String × α) → Option α
  | [] => none
  | p :: rest => if p.1 = name then some p.2 else alistGet? name rest

theorem alistGet?_of_nodup_mem {α : Type} {l : List (String × α)} {name : String} {v : α}
    (hnd : (l.map Prod.fst).Nodup) (hmem : (name, v) ∈ l) :
    alistGet? name l = some v := by
  induction l with
  | nil => cases hmem
  | cons p rest ih =>
    rcases List.mem_cons.mp hmem with h | h
    · cases h; simp [alistGet?]
    · rw [List.map_cons, List.nodup_cons] at hnd
      have hne : p.1 ≠ name := by
        intro he
        apply hnd.1
        rw [he]
        exact List.mem_map.mpr ⟨(name, v), h, rfl⟩
      simp [alistGet?, hne, ih hnd.2 h]

/- ### Data model -/

/-- The value of the `target` key of the merged config: the code only
distinguishes a scalar string (`isinstance(target, str)`) from a
sequence. -/
inductive TargetVal where
  | scalar : String → TargetVal
  | seq : List String → TargetVal

/-- The field set of one repository entry (`defaults.repos`, a repo's
own config mapping, `overrides.repos.<name>`): a partial mapping from
field name to value. -/
def RepoFields : Type := String → Option String

/-- The empty field mapping (Python `\x7b\x7d`). -/
def emptyRepoFields : RepoFields := fun _ => none

/-- First-defined choice between two optional values (Python's
dict-update precedence read back through lookups). -/
def optOr (a b : Option String) : Option String :=
  match a with
  | some v => some v
  | none => b

/-- A resolved repository handle as produced by `Repo.factory`. -/
structure RepoHandle where
  name : String
  top_repo_path : String
  fields : RepoFields

/-- The merged configuration dictionary (`self._config`), restricted to
the keys the embedded methods read.  `none` / `[]` mean the key is
absent. -/
structure MergedConfig where
  target : Option TargetVal
  task : Option String
  machine : Option String
  distro : Option String
  env : List (String × String)
  local_conf_header : List (String × String)
  bblayers_conf_header : List (String × String)
  repos : List (String × Option RepoFields)
  defaults_repos : RepoFields
  overrides_repos : List (String × RepoFields)

/-- The merged config before the first resolution pass
(`self._config = \x7b\x7d` in `Config.__init__`). -/
def emptyMergedConfig : MergedConfig :=
  { target := none, task := none, machine := none, distro := none,
    env := [], local_conf_header := [], bblayers_conf_header := [],
    repos := [], defaults_repos := emptyRepoFields, overrides_repos := [] }

/-- The `IncludeHandler` collaborator (kas library, outside `src/`),
abstracted to the surface the embedded code uses: `get_config` maps the
available repo paths to a merged config plus the names of the still
missing repos, and `get_top_repo_path` is a fixed path. -/
structure Handler where
  getConfig : List (String × String) → MergedConfig × List String
  top_repo_path : String

/-- The `Config` class state.  `filenames` is the split file list,
`_config` the merged config dict, `repo_dict` the cache maintained by
`__init__` and `get_repos`. -/
structure Config where
  override_target : Option (List String)
  override_task : Option String
  _config : MergedConfig
  handler : Handler
  filenames : List String
  repo_dict : List (String × RepoHandle)

/-- Modelled from the spec: `Repo.factory` (kas library, outside
`src/`) produces a repository handle whose merged field set applies
`defaults.repos`, then the repo's own config entry, then
`overrides.repos.<name>`, later layers winning.  Argument order follows
the call in `Config.get_repo`. -/
def Repo.factory (name : String) (config : RepoFields) (repo_defaults : RepoFields)
    (top_repo_path : String) (overrides : RepoFields) : RepoHandle :=
  { name := name, top_repo_path := top_repo_path,
    fields := fun k => optOr (overrides k) (optOr (config k) (repo_defaults k)) }

/-- The message of the `IncludeException` raised by `Config.__init__`
on mixed version-control membership. -/
def mixedRootsMsg : String :=
  "All concatenated config files must belong to the same repository or all must be outside of versioning control"

/- ### Config methods -/

/-- `Config.__init__`.  The external pieces are passed in: `rootOf`
stands for `Repo.get_root_path(os.path.dirname(os.path.abspath(f)), fallback=False)`
(kas library plus OS path resolution, outside `src/`), returning the
enclosing version-control root of a config file or `none` when the file
is outside any root; `handler` stands for the constructed
`IncludeHandler`.  The method splits the colon-separated file list,
resolves every file's root, raises `IncludeException` (modelled as
`Except.error`) when the resolved roots are not all identical, and
otherwise returns the constructed object with an empty merged config
and the repo-handle cache derived from it. -/
def Config.construct (filename : String) (target : Option (List String))
    (task : Option String) (rootOf : String → Option String)
    (handler : Handler) : Except String Config :=
  let filenames := pySplitChar filename ':'
  let repo_paths := filenames.map rootOf
  if repo_paths.dedup.length > 1 then
    Except.error mixedRootsMsg
  else
    Except.ok
      { override_target := target, override_task := task,
        _config := emptyMergedConfig, handler := handler,
        filenames := filenames, repo_dict := [] }

/-- `Config.find_missing_repos`: runs the include handler on the given
repo paths, stores the merged config it produced, and returns the
missing repo names. -/
def Config.find_missing_repos (c : Config) (repo_paths : List (String × String)) :
    Config × List String :=
  let r := c.handler.getConfig repo_paths
  ({ c with _config := r.1 }, r.2)

/-- `Config.get_repos_config`: the `repos` sub-table of the merged
config. -/
def Config.get_repos_config (c : Config) : List (String × Option RepoFields) :=
  c._config.repos

/-- `Config.get_repo`: builds the `Repo` handle for the named entry.
Python raises `KeyError` when the name is absent from the `repos`
sub-table, modelled as `none`. -/
def Config.get_repo (c : Config) (name : String) : Option RepoHandle :=
  match alistGet? name c.get_repos_config with
  | none => none
  | some entry =>
    let repo_defaults := c._config.defaults_repos
    let overrides := (alistGet? name c._config.overrides_repos).getD emptyRepoFields
    let config := entry.getD emptyRepoFields
    let top_repo_path := c.handler.top_repo_path
    some (Repo.factory name config repo_defaults top_repo_path overrides)

/-- `Config._get_repo_dict`: one entry per name of the `repos`
sub-table, each mapped through `get_repo`. -/
def Config.repoDictNow (c : Config) : List (String × RepoHandle) :=
  c.get_repos_config.filterMap
    (fun p => (c.get_repo p.1).map (fun h => (p.1, h)))

/-- `Config.get_repos`: refreshes the `repo_dict` cache from the
current merged config and returns the handle list. -/
def Config.get_repos (c : Config) : Config × List RepoHandle :=
  let d := c.repoDictNow
  ({ c with repo_dict := d }, d.map Prod.snd)

/-- The `KAS_TARGET` tokens: Python
`[i for i in os.environ.get('KAS_TARGET', '').split() if i]`. -/
def kasTargetTokens (environ : String → Option String) : List String :=
  (pyWsFields ((environ "KAS_TARGET").getD "")).filter (fun i => i ≠ "")

/-- The value the `target` key of the merged config contributes:
`self._config.get('target', 'core-image-minimal')` followed by the
`isinstance(target, str)` scalar-to-list wrap. -/
def targetFromConfig : Option TargetVal → List String
  | none => ["core-image-minimal"]
  | some (TargetVal.scalar s) => [s]
  | some (TargetVal.seq l) => l

/-- Python truthiness of the `target` constructor argument
(`if self._override_target:`): `None` and the empty list are falsy. -/
def truthyStrList : Option (List String) → Bool
  | none => false
  | some l => !l.isEmpty

/-- `Config.get_bitbake_targets`. -/
def Config.get_bitbake_targets (c : Config) (environ : String → Option String) :
    List String :=
  if truthyStrList c.override_target then c.override_target.getD []
  else
    let environ_targets := kasTargetTokens environ
    if !environ_targets.isEmpty then environ_targets
    else targetFromConfig c._config.target

/-- `Config.get_bitbake_task`. -/
def Config.get_bitbake_task (c : Config) (environ : String → Option String) : String :=
  match c.override_task with
  | some t => t
  | none => (environ "KAS_TASK").getD (c._config.task.getD "build")

/-- The rendering loop of `Config._get_conf_header`: starting from the
empty string, append `"# "` plus key, newline, value, newline for each
entry of the already sorted sequence. -/
def renderHeader (l : List (String × String)) : String :=
  l.foldl (fun header p => header ++ "# " ++ p.1 ++ "\n" ++ p.2 ++ "\n") ""

/-- `Config._get_conf_header`, applied to the sub-table the
`header_name` argument selects in the source. -/
def Config.conf_header (tbl : List (String × String)) : String :=
  renderHeader (pySortedPairs tbl)

/-- `Config.get_bblayers_conf_header`. -/
def Config.get_bblayers_conf_header (c : Config) : String :=
  Config.conf_header c._config.bblayers_conf_header

/-- `Config.get_local_conf_header`. -/
def Config.get_local_conf_header (c : Config) : String :=
  Config.conf_header c._config.local_conf_header

/-- `Config.get_machine`:
`os.environ.get('KAS_MACHINE', self._config.get('machine', 'qemux86-64'))`. -/
def Config.get_machine (c : Config) (environ : String → Option String) : String :=
  (environ "KAS_MACHINE").getD (c._config.machine.getD "qemux86-64")

/-- `Config.get_distro`:
`os.environ.get('KAS_DISTRO', self._config.get('distro', 'poky'))`. -/
def Config.get_distro (c : Config) (environ : String → Option String) : String :=
  (environ "KAS_DISTRO").getD (c._config.distro.getD "poky")

/-- `Config.get_environment`: the declared `env` variables, each looked
up in the process environment with the config value as default. -/
def Config.get_environment (c : Config) (environ : String → Option String) :
    List (String × String) :=
  c._config.env.map (fun p => (p.1, (environ p.1).getD p.2))

/-- Adding one element to a Python `set`, represented as a
duplicate-free list in insertion order. -/
def setAdd (s : List String) (x : String) : List String :=
  if x ∈ s then s else s ++ [x]

/-- The `multiconfigs` set built by `Config.get_multiconfig`: for every
resolved bitbake target starting with `multiconfig:` or `mc:`, the
second colon-delimited field is added to the set. -/
def Config.multiconfigs (c : Config) (environ : String → Option String) : List String :=
  (c.get_bitbake_targets environ).foldl
    (fun mcs target =>
      if pyStarts target "multiconfig:" || pyStarts target "mc:" then
        setAdd mcs ((pySplitChar target ':').getD 1 "")
      else mcs) []

/-- `Config.get_multiconfig`: the multiconfig set joined with single
spaces.  Python joins a hash set in unspecified order; the model joins
in insertion order, one of the admissible orders. -/
def Config.get_multiconfig (c : Config) (environ : String → Option String) : String :=
  " ".intercalate (c.multiconfigs environ)

/- ### Execution context and the InitSetupRepos command -/

/-- The slice of the kas `ExecutionContext` the embedded command
touches. -/
structure ExecutionContext where
  config : Config
  missing_repo_names : List String
  missing_repo_names_old : Option (List String)

/-- `InitSetupRepos.execute`: recompute the missing-repo set from the
configuration and reset the previous-pass field to the `None`
sentinel. -/
def InitSetupRepos.execute (ctx : ExecutionContext) : ExecutionContext :=
  let r := ctx.config.find_missing_repos []
  { ctx with config := r.1, missing_repo_names := r.2,
             missing_repo_names_old := none }

/-- Modelled from the spec: the convergence loop's Failed condition
(`SetupReposStep`, kas library, outside `src/`).  The loop fails when a
previous pass recorded a missing-repo set and the freshly computed set
contains it (identical or a superset); the `None` sentinel of the first
pass matches no recorded set. -/
def failedCondition (current : List String) (previous : Option (List String)) : Prop :=
  ∃ prev, previous = some prev ∧ prev ⊆ current

/- ### Supporting lemmas -/

theorem dedup_length_le_one_iff {α : Type} [DecidableEq α] (l : List α) :
    l.dedup.length ≤ 1 ↔ ∀ a ∈ l, ∀ b ∈ l, a = b := by
  constructor
  · intro h a ha b hb
    have ha' : a ∈ l.dedup := List.mem_dedup.2 ha
    have hb' : b ∈ l.dedup := List.mem_dedup.2 hb
    rcases hd : l.dedup with _ | ⟨x, xs⟩
    · rw [hd] at ha'; cases ha'
    · rcases xs with _ | ⟨y, ys⟩
      · rw [hd] at ha' hb'
        have hax : a = x := by simpa using ha'
        have hbx : b = x := by simpa using hb'
        rw [hax, hbx]
      · rw [hd] at h; simp at h
  · intro h
    by_contra hlen
    push_neg at hlen
    rcases hd : l.dedup with _ | ⟨x, xs⟩
    · rw [hd] at hlen; simp at hlen
    · rcases xs with _ | ⟨y, ys⟩
      · rw [hd] at hlen; simp at hlen
      · have hnd := l.nodup_dedup
        rw [hd] at hnd
        have hxl : x ∈ l := List.mem_dedup.1 (by rw [hd]; exact List.mem_cons_self _ _)
        have hyl : y ∈ l := List.mem_dedup.1 (by rw [hd]; simp)
        rw [List.nodup_cons] at hnd
        exact hnd.1 (by rw [h x hxl y hyl]; exact List.mem_cons_self _ _)

theorem filterMap_eq_map_of {α β : Type} (g : α → Option β) (f : α → β) :
    ∀ l : List α, (∀ a ∈ l, g a = some (f a)) → l.filterMap g = l.map f
  | [], _ => rfl
  | a :: l, h => by
    rw [List.filterMap_cons, h a (List.mem_cons_self _ _), List.map_cons,
      filterMap_eq_map_of g f l (fun b hb => h b (List.mem_cons_of_mem _ hb))]

theorem mem_setAdd {s : List String} {x y : String} :
    y ∈ setAdd s x ↔ y ∈ s ∨ y = x := by
  by_cases h : x ∈ s
  · simp only [setAdd, if_pos h]
    constructor
    · exact Or.inl
    · rintro (hy | rfl)
      · exact hy
      · exact h
  · simp [setAdd, if_neg h]

theorem nodup_setAdd {s : List String} (h : s.Nodup) (x : String) :
    (setAdd s x).Nodup := by
  by_cases hx : x ∈ s
  · simpa [setAdd, if_pos hx] using h
  · simp [setAdd, if_neg hx, List.nodup_append, h, hx]

theorem foldl_setAdd_mem (cond : String → Bool) (ext : String → String) :
    ∀ (l : List String) (acc : List String) (x : String),
      x ∈ l.foldl (fun mcs t => if cond t then setAdd mcs (ext t) else mcs) acc ↔
        x ∈ acc ∨ ∃ t ∈ l, cond t = true ∧ x = ext t
  | [], acc, x => by simp
  | t :: l, acc, x => by
    simp only [List.foldl_cons]
    rw [foldl_setAdd_mem cond ext l _ x]
    by_cases h : cond t
    · simp only [h, if_pos, ite_true, mem_setAdd, List.mem_cons]
      constructor
      · rintro ((hy | rfl) | ⟨t', ht', hc, rfl⟩)
        · exact Or.inl hy
        · exact Or.inr ⟨t, Or.inl rfl, h, rfl⟩
        · exact Or.inr ⟨t', Or.inr ht', hc, rfl⟩
      · rintro (hy | ⟨t', ht' | ht', hc, rfl⟩)
        · exact Or.inl (Or.inl hy)
        · exact Or.inl (Or.inr (ht' ▸ rfl))
        · exact Or.inr ⟨t', ht', hc, rfl⟩
    · simp only [h, if_neg, ite_false, List.mem_cons]
      constructor
      · rintro (hy | ⟨t', ht', hc, rfl⟩)
        · exact Or.inl hy
        · exact Or.inr ⟨t', Or.inr ht', hc, rfl⟩
      · rintro (hy | ⟨t', ht' | ht', hc, rfl⟩)
        · exact Or.inl hy
        · exact absurd (ht' ▸ hc) h
        · exact Or.inr ⟨t', ht', hc, rfl⟩

theorem foldl_setAdd_nodup (cond : String → Bool) (ext : String → String) :
    ∀ (l : List String) (acc : List String), acc.Nodup →
      (l.foldl (fun mcs t => if cond t then setAdd mcs (ext t) else mcs) acc).Nodup
  | [], _, h => h
  | t :: l, acc, h => by
    simp only [List.foldl_cons]
    apply foldl_setAdd_nodup
    by_cases hc : cond t
    · simpa [hc] using nodup_setAdd h (ext t)
    · simpa [hc] using h

theorem string_data_inj {a b : String} (h : a.data = b.data) : a = b := by
  cases a; cases b; cases h; rfl

/-- Strict key order on dict entries: below in key order and the keys
are distinct. -/
def keyStrict (a b : String × String) : Prop := keyLe a b ∧ a.1 ≠ b.1

instance : IsAntisymm (String × String) keyStrict :=
  ⟨fun _ _ h h' =>
    absurd (string_data_inj (lexLe_antisymm h.1 h'.1)) h.2⟩

theorem pySortedPairs_sorted (l : List (String × String)) :
    List.Sorted keyLe (pySortedPairs l) :=
  List.sorted_insertionSort keyLe l

theorem pySortedPairs_perm (l : List (String × String)) :
    List.Perm (pySortedPairs l) l :=
  List.perm_insertionSort keyLe l

theorem sortedPairs_eq_of_perm {t₁ t₂ : List (String × String)}
    (hp : List.Perm t₁ t₂) (hnd : (t₁.map Prod.fst).Nodup) :
    pySortedPairs t₁ = pySortedPairs t₂ := by
  have kne₁ : t₁.Pairwise (fun a b : String × String => a.1 ≠ b.1) :=
    List.pairwise_map.mp hnd
  have hsym : ∀ {x y : String × String}, x.1 ≠ y.1 → y.1 ≠ x.1 := fun h => h.symm
  have kne₂ : t₂.Pairwise (fun a b : String × String => a.1 ≠ b.1) :=
    (hp.pairwise_iff hsym).mp kne₁
  have knes₁ : (pySortedPairs t₁).Pairwise (fun a b : String × String => a.1 ≠ b.1) :=
    ((pySortedPairs_perm t₁).pairwise_iff hsym).mpr kne₁
  have knes₂ : (pySortedPairs t₂).Pairwise (fun a b : String × String => a.1 ≠ b.1) :=
    ((pySortedPairs_perm t₂).pairwise_iff hsym).mpr kne₂
  have hstrict₁ : (pySortedPairs t₁).Pairwise keyStrict :=
    List.Pairwise.imp₂ (fun _ _ h h' => ⟨h, h'⟩) (pySortedPairs_sorted t₁) knes₁
  have hstrict₂ : (pySortedPairs t₂).Pairwise keyStrict :=
    List.Pairwise.imp₂ (fun _ _ h h' => ⟨h, h'⟩) (pySortedPairs_sorted t₂) knes₂
  exact List.eq_of_perm_of_sorted
    ((pySortedPairs_perm t₁).trans (hp.trans (pySortedPairs_perm t₂).symm))
    hstrict₁ hstrict₂

theorem charSplitP_all_sep {p : Char → Bool} :
    ∀ {l : List Char}, (∀ c ∈ l, p c = true) →
      (charSplitP p l).1 = [] ∧ ∀ piece ∈ (charSplitP p l).2, piece = []
  | [], _ => ⟨rfl, fun piece hp => absurd hp (List.not_mem_nil piece)⟩
  | c :: rest, h => by
    have hc : p c = true := h c (List.mem_cons_self _ _)
    have ih := charSplitP_all_sep (fun d hd => h d (List.mem_cons_of_mem _ hd))
    simp only [charSplitP, hc, if_pos, ite_true, true_and, eq_self_iff_true]
    intro piece hp
    rcases List.mem_cons.1 hp with rfl | hp
    · exact ih.1
    · exact ih.2 piece hp

/- ### Concrete example data -/

/-- A trivial include handler for concrete examples: one pass reports
repo `repoB` missing and leaves the config empty. -/
def handlerEx : Handler :=
  { getConfig := fun _ => (emptyMergedConfig, ["repoB"]), top_repo_path := "/top" }

/-- Root resolution for the construction example: `a.yml` lies inside
the version-control root `/repo1`, `b.yml` outside any root. -/
def rootOfEx : String → Option String :=
  fun f => if f = "a.yml" then some "/repo1" else none

/-- An empty process environment. -/
def envEmpty : String → Option String := fun _ => none

/-- A process environment with `KAS_TARGET` set to one token. -/
def envKasTarget : String → Option String :=
  fun k => if k = "KAS_TARGET" then some "extra-image" else none

/-- A process environment with `KAS_TARGET` set to whitespace only. -/
def envKasTargetWs : String → Option String :=
  fun k => if k = "KAS_TARGET" then some "   " else none

/-- A process environment with `KAS_MACHINE=raspberrypi4`. -/
def envMachine : String → Option String :=
  fun k => if k = "KAS_MACHINE" then some "raspberrypi4" else none

/-- A base config object used by the concrete examples. -/
def cfgBase : Config :=
  { override_target := none, override_task := none,
    _config := emptyMergedConfig, handler := handlerEx,
    filenames := ["a.yml"], repo_dict := [] }

/-- A config whose constructor received the empty target list. -/
def cfgEmptyOverride : Config :=
  { cfgBase with override_target := some [] }

/-- A config whose constructor received an explicit target override. -/
def cfgOverride : Config :=
  { cfgBase with override_target := some ["custom-image"] }

/-- A config declaring `machine: qemux86-64`. -/
def cfgMachine : Config :=
  { cfgBase with _config := { emptyMergedConfig with machine := some "qemux86-64" } }

/-- The repo-layering example: `defaults.repos.branch = "main"`, repo
`foo` with no config of its own, `overrides.repos.foo.branch =
"release"`. -/
def branchMain : RepoFields := fun k => if k = "branch" then some "main" else none

/-- The override layer of the repo-layering example. -/
def branchRelease : RepoFields := fun k => if k = "branch" then some "release" else none

/-- Config of the repo-layering example. -/
def cfgRepoLayering : Config :=
  { cfgBase with
    _config := { emptyMergedConfig with
                 repos := [("foo", none)],
                 defaults_repos := branchMain,
                 overrides_repos := [("foo", branchRelease)] } }

/-- A stale repo-handle cache, to show `get_repos` ignores it. -/
def staleCache : List (String × RepoHandle) :=
  [("stale", Repo.factory "stale" emptyRepoFields emptyRepoFields "/top" emptyRepoFields)]

/-- Config of the multiconfig example:
`target: ["core-image-minimal", "mc:qemu:core-image-sato"]`. -/
def cfgMc : Config :=
  { cfgBase with
    _config := { emptyMergedConfig with
                 target := some (TargetVal.seq
                   ["core-image-minimal", "mc:qemu:core-image-sato"]) } }

/-- Config with a scalar `target` key. -/
def cfgTargetScalar : Config :=
  { cfgBase with
    _config := { emptyMergedConfig with
                 target := some (TargetVal.scalar "core-image-sato") } }

/-- Config with conf-header tables given in unsorted insertion order. -/
def cfgHeader : Config :=
  { cfgBase with
    _config := { emptyMergedConfig with
                 local_conf_header := [("b", "B"), ("a", "A")],
                 bblayers_conf_header := [("b", "B"), ("a", "A")] } }

/-- Config declaring two `env` variables with defaults. -/
def cfgEnv : Config :=
  { cfgBase with
    _config := { emptyMergedConfig with
                 env := [("A", "defA"), ("B", "defB")] } }

/-- A process environment setting variable `A` only. -/
def envProc : String → Option String :=
  fun k => if k = "A" then some "procA" else none

/-- An execution context with leftover state from an earlier run. -/
def ctxEx : ExecutionContext :=
  { config := cfgBase, missing_repo_names := ["old"],
    missing_repo_names_old := some ["older"] }

/- ### Claim theorems -/

/-- C1: Constructing a `Config` from a colon-separated list of config
file paths raises the mixed-membership `IncludeException` (returning no
object) exactly when two of the paths resolve to different
version-control roots or one resolves inside a root and another outside
every root; when all paths share one root, or all lie outside any root,
construction succeeds. -/
theorem c1_mixed_root_construction (filename : String) (target : Option (List String))
    (task : Option String) (rootOf : String → Option String) (handler : Handler) :
    (Config.construct filename target task rootOf handler = Except.error mixedRootsMsg ↔
      ∃ f₁ ∈ pySplitChar filename ':', ∃ f₂ ∈ pySplitChar filename ':',
        rootOf f₁ ≠ rootOf f₂)
    ∧ (∀ r, (∀ f ∈ pySplitChar filename ':', rootOf f = some r) →
        ∃ cfg, Config.construct filename target task rootOf handler = Except.ok cfg)
    ∧ ((∀ f ∈ pySplitChar filename ':', rootOf f = none) →
        ∃ cfg, Config.construct filename target task rootOf handler = Except.ok cfg) := by
  have key : (((pySplitChar filename ':').map rootOf).dedup.length > 1) ↔
      ∃ f₁ ∈ pySplitChar filename ':', ∃ f₂ ∈ pySplitChar filename ':',
        rootOf f₁ ≠ rootOf f₂ := by
    rw [gt_iff_lt, ← not_le, dedup_length_le_one_iff]
    constructor
    · intro h
      by_contra hc
      push_neg at hc
      apply h
      intro a ha b hb
      rcases List.mem_map.1 ha with ⟨x, hx, rfl⟩
      rcases List.mem_map.1 hb with ⟨y, hy, rfl⟩
      exact hc x hx y hy
    · rintro ⟨f₁, h₁, f₂, h₂, hne⟩ hall
      exact hne (hall _ (List.mem_map_of_mem _ h₁) _ (List.mem_map_of_mem _ h₂))
  by_cases hgt : ((pySplitChar filename ':').map rootOf).dedup.length > 1
  · refine ⟨iff_of_true (by simp [Config.construct, hgt]) (key.1 hgt), ?_, ?_⟩
    · intro r hall
      exfalso
      apply absurd hgt
      rw [gt_iff_lt, not_lt]
      rw [dedup_length_le_one_iff]
      intro a ha b hb
      rcases List.mem_map.1 ha with ⟨x, hx, rfl⟩
      rcases List.mem_map.1 hb with ⟨y, hy, rfl⟩
      rw [hall x hx, hall y hy]
    · intro hall
      exfalso
      apply absurd hgt
      rw [gt_iff_lt, not_lt]
      rw [dedup_length_le_one_iff]
      intro a ha b hb
      rcases List.mem_map.1 ha with ⟨x, hx, rfl⟩
      rcases List.mem_map.1 hb with ⟨y, hy, rfl⟩
      rw [hall x hx, hall y hy]
  · have hok : Config.construct filename target task rootOf handler =
        Except.ok
          { override_target := target, override_task := task,
            _config := emptyMergedConfig, handler := handler,
            filenames := pySplitChar filename ':', repo_dict := [] } := by
      simp [Config.construct, hgt]
    refine ⟨iff_of_false (by simp [hok]) (fun hex => hgt (key.2 hex)),
      fun r _ => ⟨_, hok⟩, fun _ => ⟨_, hok⟩⟩

/-- Witness for C1 at a concrete mixed file list: `a.yml` inside a
root, `b.yml` outside every root. -/
theorem c1_mixed_root_construction_witness :
    Config.construct "a.yml:b.yml" none none rootOfEx handlerEx =
      Except.error mixedRootsMsg := by
  apply (c1_mixed_root_construction "a.yml:b.yml" none none rootOfEx handlerEx).1.mpr
  refine ⟨"a.yml", by decide, "b.yml", by decide, by decide⟩

/-- C2: After `InitSetupRepos.execute`, the previous-pass field holds
the `None` sentinel, distinct from every missing-repo set, the current
field holds the set freshly computed from the configuration, and the
Failed condition of the convergence loop cannot hold. -/
theorem c2_first_pass_sentinel (ctx : ExecutionContext) :
    (InitSetupRepos.execute ctx).missing_repo_names_old = none
    ∧ (InitSetupRepos.execute ctx).missing_repo_names =
        (ctx.config.handler.getConfig []).2
    ∧ (∀ s : List String, (InitSetupRepos.execute ctx).missing_repo_names_old ≠ some s)
    ∧ ¬ failedCondition (InitSetupRepos.execute ctx).missing_repo_names
        (InitSetupRepos.execute ctx).missing_repo_names_old := by
  refine ⟨rfl, rfl, fun s => by simp [InitSetupRepos.execute], ?_⟩
  rintro ⟨prev, hprev, -⟩
  simp [InitSetupRepos.execute] at hprev

/-- Witness for C2 at a concrete context carrying stale loop state. -/
theorem c2_first_pass_sentinel_witness :
    (InitSetupRepos.execute ctxEx).missing_repo_names_old = none
    ∧ (InitSetupRepos.execute ctxEx).missing_repo_names =
        (ctxEx.config.handler.getConfig []).2
    ∧ (∀ s : List String, (InitSetupRepos.execute ctxEx).missing_repo_names_old ≠ some s)
    ∧ ¬ failedCondition (InitSetupRepos.execute ctxEx).missing_repo_names
        (InitSetupRepos.execute ctxEx).missing_repo_names_old :=
  c2_first_pass_sentinel ctxEx

/-- C3 counterexample: the claim says a supplied override target is
always returned, but the code tests Python truthiness, so a supplied
*empty* override list is ignored in favour of `KAS_TARGET`. -/
theorem c3_counterexample :
    cfgEmptyOverride.override_target = some []
    ∧ cfgEmptyOverride.get_bitbake_targets envKasTarget = ["extra-image"]
    ∧ (["extra-image"] : List String) ≠ [] :=
  ⟨rfl, by decide, by decide⟩

/-- C3 (amended): `get_bitbake_targets` returns a supplied *non-empty*
override target; otherwise (including a supplied empty override), the
`KAS_TARGET` tokens when there is at least one; otherwise the config
`target` value, a scalar as a one-element list and a sequence as-is;
otherwise `["core-image-minimal"]`. -/
theorem c3_target_precedence (c : Config) (environ : String → Option String) :
    (∀ l, c.override_target = some l → l ≠ [] →
      c.get_bitbake_targets environ = l)
    ∧ ((c.override_target = none ∨ c.override_target = some []) →
        (kasTargetTokens environ ≠ [] →
          c.get_bitbake_targets environ = kasTargetTokens environ)
        ∧ (kasTargetTokens environ = [] →
            (∀ s, c._config.target = some (TargetVal.scalar s) →
              c.get_bitbake_targets environ = [s])
            ∧ (∀ l, c._config.target = some (TargetVal.seq l) →
              c.get_bitbake_targets environ = l)
            ∧ (c._config.target = none →
              c.get_bitbake_targets environ = ["core-image-minimal"]))) := by
  constructor
  · intro l hl hne
    have hemp : l.isEmpty = false := by
      cases l with
      | nil => cases hne rfl
      | cons a t => rfl
    simp [Config.get_bitbake_targets, hl, truthyStrList, hemp]
  · intro hov
    have hfalsy : truthyStrList c.override_target = false := by
      rcases hov with h | h <;> simp [truthyStrList, h]
    constructor
    · intro hne
      have : (kasTargetTokens environ).isEmpty = false := by
        cases htok : kasTargetTokens environ with
        | nil => cases hne htok
        | cons a t => simp
      simp [Config.get_bitbake_targets, hfalsy, this]
    · intro hemp
      have : (kasTargetTokens environ).isEmpty = true := by simp [hemp]
      refine ⟨fun s hs => ?_, fun l hl => ?_, fun hn => ?_⟩ <;>
        simp [Config.get_bitbake_targets, hfalsy, this, targetFromConfig, *]

/-- Witness for C3: a concrete non-empty override wins over a set
`KAS_TARGET`. -/
theorem c3_target_precedence_witness :
    cfgOverride.get_bitbake_targets envKasTarget = ["custom-image"] :=
  (c3_target_precedence cfgOverride envKasTarget).1 ["custom-image"] rfl (by decide)

/-- C4: `get_machine` returns the `KAS_MACHINE` environment value when
set, else the config `machine` value when present, else
`"qemux86-64"`. -/
theorem c4_machine_precedence (c : Config) (environ : String → Option String) :
    (∀ v, environ "KAS_MACHINE" = some v → c.get_machine environ = v)
    ∧ (environ "KAS_MACHINE" = none →
        (∀ m, c._config.machine = some m → c.get_machine environ = m)
        ∧ (c._config.machine = none → c.get_machine environ = "qemux86-64")) := by
  refine ⟨fun v hv => by simp [Config.get_machine, hv], fun he =>
    ⟨fun m hm => by simp [Config.get_machine, he, hm],
     fun hm => by simp [Config.get_machine, he, hm]⟩⟩

/-- Witness for C4 at the spec's example: config `machine: qemux86-64`
and `KAS_MACHINE=raspberrypi4` yield `raspberrypi4`. -/
theorem c4_machine_precedence_witness :
    cfgMachine.get_machine envMachine = "raspberrypi4" :=
  (c4_machine_precedence cfgMachine envMachine).1 "raspberrypi4" (by decide)

/-- C5: For every name in the `repos` sub-table, `get_repo` produces a
handle whose field set layers `defaults.repos`, then the repo's own
config entry, then `overrides.repos.<name>`, later layers winning. -/
theorem c5_repo_field_layering (c : Config) (name : String) (entry : Option RepoFields)
    (hnd : (c._config.repos.map Prod.fst).Nodup)
    (hmem : (name, entry) ∈ c._config.repos) :
    ∃ h : RepoHandle, c.get_repo name = some h ∧ h.name = name
      ∧ h.top_repo_path = c.handler.top_repo_path
      ∧ ∀ k, h.fields k =
          optOr (((alistGet? name c._config.overrides_repos).getD emptyRepoFields) k)
            (optOr ((entry.getD emptyRepoFields) k) (c._config.defaults_repos k)) := by
  have hget : alistGet? name c.get_repos_config = some entry :=
    alistGet?_of_nodup_mem hnd hmem
  exact ⟨Repo.factory name (entry.getD emptyRepoFields) c._config.defaults_repos
      c.handler.top_repo_path ((alistGet? name c._config.overrides_repos).getD emptyRepoFields),
    by simp [Config.get_repo, hget], rfl, rfl, fun k => rfl⟩

/-- Witness for C5 at the spec's layering example: defaults branch
`main`, repo `foo` with no own branch, override branch `release`. -/
theorem c5_repo_field_layering_witness :
    (cfgRepoLayering.get_repo "foo").map (fun h => h.fields "branch") =
      some (some "release") := by
  obtain ⟨h, hget, -, -, hf⟩ :=
    c5_repo_field_layering cfgRepoLayering "foo" none (by decide)
      (List.mem_cons_self _ _)
  rw [hget, Option.map_some', hf "branch"]
  decide

/-- C6: `get_repos` re-derives the handle list from the current merged
config — whatever handle cache the object carries, the result is one
handle per name of the current `repos` sub-table, and the refreshed
cache lists exactly the current names. -/
theorem c6_get_repos_rederives (c : Config) (cache : List (String × RepoHandle))
    (hnd : (c._config.repos.map Prod.fst).Nodup) :
    (({ c with repo_dict := cache } : Config).get_repos).2 =
      c._config.repos.map (fun p =>
        Repo.factory p.1 (p.2.getD emptyRepoFields) c._config.defaults_repos
          c.handler.top_repo_path
          ((alistGet? p.1 c._config.overrides_repos).getD emptyRepoFields))
    ∧ (({ c with repo_dict := cache } : Config).get_repos).1.repo_dict.map Prod.fst =
        c._config.repos.map Prod.fst := by
  have hdict : Config.repoDictNow { c with repo_dict := cache } =
      c._config.repos.map (fun p => (p.1,
        Repo.factory p.1 (p.2.getD emptyRepoFields) c._config.defaults_repos
          c.handler.top_repo_path
          ((alistGet? p.1 c._config.overrides_repos).getD emptyRepoFields))) := by
    apply filterMap_eq_map_of
    intro p hp
    have hget : alistGet? p.1 c._config.repos = some p.2 :=
      alistGet?_of_nodup_mem hnd hp
    simp [Config.get_repo, Config.get_repos_config, hget]
  constructor
  · show (Config.repoDictNow { c with repo_dict := cache }).map Prod.snd = _
    rw [hdict, List.map_map]
    rfl
  · show (Config.repoDictNow { c with repo_dict := cache }).map Prod.fst = _
    rw [hdict, List.map_map]
    rfl

/-- Witness for C6: with a stale cache installed, `get_repos` still
lists exactly the current repo name. -/
theorem c6_get_repos_rederives_witness :
    List.map Prod.fst
        (({ cfgRepoLayering with repo_dict := staleCache } : Config).get_repos).1.repo_dict =
      ["foo"] := by
  have h := (c6_get_repos_rederives cfgRepoLayering staleCache (by decide)).2
  exact h.trans (by decide)

/-- C7: the multiconfig set contains exactly the second colon-delimited
field of every resolved target starting with `multiconfig:` or `mc:`,
holds no duplicates, and `get_multiconfig` joins it with single spaces;
at the spec's example the set is exactly the singleton `qemu`. -/
theorem c7_multiconfig (c : Config) (environ : String → Option String) :
    (∀ x, x ∈ c.multiconfigs environ ↔
        ∃ t ∈ c.get_bitbake_targets environ,
          (pyStarts t "multiconfig:" = true ∨ pyStarts t "mc:" = true)
          ∧ x = (pySplitChar t ':').getD 1 "")
    ∧ (c.multiconfigs environ).Nodup
    ∧ c.get_multiconfig environ = " ".intercalate (c.multiconfigs environ)
    ∧ cfgMc.multiconfigs envEmpty = ["qemu"]
    ∧ cfgMc.get_multiconfig envEmpty = "qemu" := by
  refine ⟨?_, ?_, rfl, by decide, by decide⟩
  · intro x
    have h := foldl_setAdd_mem
      (fun t => pyStarts t "multiconfig:" || pyStarts t "mc:")
      (fun t => (pySplitChar t ':').getD 1 "")
      (c.get_bitbake_targets environ) [] x
    unfold Config.multiconfigs
    simpa [Bool.or_eq_true] using h
  · exact foldl_setAdd_nodup
      (fun t => pyStarts t "multiconfig:" || pyStarts t "mc:")
      (fun t => (pySplitChar t ':').getD 1 "")
      (c.get_bitbake_targets environ) [] List.nodup_nil

/-- Witness for C7: `qemu` is in the multiconfig set of the example
config. -/
theorem c7_multiconfig_witness : "qemu" ∈ cfgMc.multiconfigs envEmpty := by
  apply ((c7_multiconfig cfgMc envEmpty).1 "qemu").mpr
  exact ⟨"mc:qemu:core-image-sato", by decide, Or.inr (by decide), by decide⟩

/-- C8: the conf-header getters render `"# key\nvalue\n"` for every
entry in sorted key order, so the output only depends on the entry set,
not on insertion order: any permutation of the stored table yields the
same rendering. -/
theorem c8_conf_header_sorted (c : Config) (t : List (String × String))
    (hnd : (t.map Prod.fst).Nodup) :
    (List.Perm t c._config.local_conf_header →
      c.get_local_conf_header = renderHeader (pySortedPairs t))
    ∧ (List.Perm t c._config.bblayers_conf_header →
      c.get_bblayers_conf_header = renderHeader (pySortedPairs t))
    ∧ List.Sorted keyLe (pySortedPairs t)
    ∧ List.Perm (pySortedPairs t) t := by
  refine ⟨?_, ?_, pySortedPairs_sorted t, pySortedPairs_perm t⟩
  · intro hp
    have hnd' : (c._config.local_conf_header.map Prod.fst).Nodup :=
      ((hp.map Prod.fst).nodup_iff).1 hnd
    show renderHeader (pySortedPairs c._config.local_conf_header) = _
    rw [sortedPairs_eq_of_perm hp.symm hnd']
  · intro hp
    have hnd' : (c._config.bblayers_conf_header.map Prod.fst).Nodup :=
      ((hp.map Prod.fst).nodup_iff).1 hnd
    show renderHeader (pySortedPairs c._config.bblayers_conf_header) = _
    rw [sortedPairs_eq_of_perm hp.symm hnd']

/-- Witness for C8: a table stored in reverse insertion order renders
the same as its sorted permutation. -/
theorem c8_conf_header_sorted_witness :
    cfgHeader.get_local_conf_header =
      renderHeader (pySortedPairs [("a", "A"), ("b", "B")]) := by
  exact (c8_conf_header_sorted cfgHeader [("a", "A"), ("b", "B")] (by decide)).1
    (List.Perm.swap _ _ _)

/-- C9: `get_environment` returns exactly the variables declared in the
`env` sub-table, each valued by the process environment when set there
and by the config default otherwise. -/
theorem c9_environment (c : Config) (environ : String → Option String) :
    ((c.get_environment environ).map Prod.fst = c._config.env.map Prod.fst)
    ∧ (∀ p ∈ c._config.env, (p.1, (environ p.1).getD p.2) ∈ c.get_environment environ)
    ∧ (∀ q ∈ c.get_environment environ,
        ∃ p ∈ c._config.env, q = (p.1, (environ p.1).getD p.2)) := by
  refine ⟨?_, ?_, ?_⟩
  · show (c._config.env.map _).map Prod.fst = _
    rw [List.map_map]
    rfl
  · intro p hp
    exact List.mem_map.mpr ⟨p, hp, rfl⟩
  · intro q hq
    rcases List.mem_map.1 hq with ⟨p, hp, rfl⟩
    exact ⟨p, hp, rfl⟩

/-- Witness for C9: variable `A` takes its process-environment value,
the key list is the declared one. -/
theorem c9_environment_witness :
    ((cfgEnv.get_environment envProc).map Prod.fst = cfgEnv._config.env.map Prod.fst)
    ∧ ("A", "procA") ∈ cfgEnv.get_environment envProc := by
  have h := c9_environment cfgEnv envProc
  refine ⟨h.1, ?_⟩
  have h2 := h.2.1 ("A", "defA") (List.mem_cons_self _ _)
  simpa [envProc] using h2

/-- C10: with no override target and `KAS_TARGET` set to a
whitespace-only string, `get_bitbake_targets` ignores the variable and
falls through to the config `target` value (or the hard-coded
default). -/
theorem c10_whitespace_kas_target (c : Config) (environ : String → Option String)
    (s : String) (hov : c.override_target = none)
    (henv : environ "KAS_TARGET" = some s)
    (hws : ∀ ch ∈ s.data, ch.isWhitespace = true) :
    c.get_bitbake_targets environ = targetFromConfig c._config.target := by
  have hall := charSplitP_all_sep (p := Char.isWhitespace) hws
  have htok : kasTargetTokens environ = [] := by
    rw [kasTargetTokens, henv]
    simp only [Option.getD_some]
    rw [List.filter_eq_nil_iff]
    intro a ha
    simp only [pyWsFields, List.mem_map, List.mem_cons] at ha
    obtain ⟨cs, hcs, rfl⟩ := ha
    have hcse : cs = [] := by
      rcases hcs with rfl | hcs
      · exact hall.1
      · exact hall.2 cs hcs
    rw [hcse]
    decide
  simp [Config.get_bitbake_targets, hov, truthyStrList, htok]

/-- Witness for C10: `KAS_TARGET` of three spaces is ignored and the
scalar config target is returned. -/
theorem c10_whitespace_kas_target_witness :
    cfgTargetScalar.get_bitbake_targets envKasTargetWs = ["core-image-sato"] := by
  have h := c10_whitespace_kas_target cfgTargetScalar envKasTargetWs "   "
    rfl (by decide) (by decide)
  exact h.trans rfl
